import Mathlib

/-!
Verification development for the plugin resolution and command-aliasing
subsystem of the `vibe` application (files `vibe/cli/commands.py` and
`vibe/core/plugins/manager.py`, with data models from
`vibe/core/plugins/models.py`).

The Python code is shallowly embedded: Python dicts become association
lists with insertion-order update semantics (`dictGet`, `dictInsert`,
`dictRemove`), the filesystem checkout of a plugin becomes a `Checkout`
(a list of text files plus the `json.loads` results of its
manifest-candidate JSON files), subprocess git operations become an
`InstallEnv` oracle recording the outcome of `git clone` / `git pull`,
and the persisted `plugins.json` registry file is modelled by its parsed
content (a write stores the current document; no write leaves it
byte-for-byte identical).

String operations are implemented character-wise over `String.data` so
that every definition evaluates inside the kernel; they mirror the
Python string methods used by the source (ASCII case folding, as all
inputs of interest are ASCII).
-/

namespace Vibe

/-- Build a string from a character list. -/
def chstr (l : List Char) : String := ⟨l⟩

/-- Python `str.lower()` (ASCII case folding, matching the inputs used here). -/
def sToLower (s : String) : String := ⟨s.data.map Char.toLower⟩

/-- Helper for splitting a character list on a separator character. -/
def splitOnCharAux (sep : Char) : List Char → List Char → List (List Char)
  | [], acc => [acc.reverse]
  | c :: rest, acc =>
      if c = sep then acc.reverse :: splitOnCharAux sep rest []
      else splitOnCharAux sep rest (c :: acc)

/-- Python `str.split(sep)` for a one-character separator. -/
def splitChar (sep : Char) (s : String) : List String :=
  (splitOnCharAux sep s.data []).map chstr

/-- Components of a POSIX relative path, as produced by `str.split("/")`. -/
def pathComponents (p : String) : List String := splitChar '/' p

/-- Final path component, as in `repo.split("/")[-1]` or `Path.name`. -/
def lastComponent (p : String) : String := (pathComponents p).getLastD ""

/-- Python `str.strip()` (whitespace at both ends). -/
def sTrim (s : String) : String :=
  ⟨((s.data.dropWhile Char.isWhitespace).reverse.dropWhile Char.isWhitespace).reverse⟩

/-- Whether the first list is an initial segment of the second. -/
def leadsWith : List Char → List Char → Bool
  | [], _ => true
  | _ :: _, [] => false
  | a :: as, b :: bs => if a = b then leadsWith as bs else false

/-- Python `str.startswith(pre)`. -/
def sStartsWith (s pre : String) : Bool := leadsWith pre.data s.data

/-- Python `str.endswith(suf)`. -/
def sEndsWith (s suf : String) : Bool := leadsWith suf.data.reverse s.data.reverse

/-- Python slicing `s[n:]` (characters). -/
def sDrop (s : String) (n : Nat) : String := ⟨s.data.drop n⟩

/-- Python slicing `s[:-n]` (characters). -/
def sDropRight (s : String) (n : Nat) : String := ⟨(s.data.reverse.drop n).reverse⟩

/-- Python `c in s` for a one-character needle. -/
def sContains (s : String) (c : Char) : Bool := s.data.any (fun x => x = c)

/-- Python `str.rstrip("/")`. -/
def rstripSlashes (s : String) : String := ⟨(s.data.reverse.dropWhile (fun c => c = '/')).reverse⟩

/-- First whitespace-delimited token of a stripped string: `parts[0]` of
`s.strip().split(maxsplit=1)`, or `""` when there is no token. -/
def baseToken (s : String) : String := ⟨(sTrim s).data.takeWhile (fun c => ¬ c.isWhitespace)⟩

/-- Association-list lookup with Python `dict.get` semantics. -/
def dictGet {β : Type} : List (String × β) → String → Option β
  | [], _ => none
  | (k1, v1) :: rest, k => if k1 = k then some v1 else dictGet rest k

/-- Association-list update with Python `d[k] = v` semantics: an existing
key keeps its position, a new key is appended. -/
def dictInsert {β : Type} : List (String × β) → String → β → List (String × β)
  | [], k, v => [(k, v)]
  | (k1, v1) :: rest, k, v =>
      if k1 = k then (k, v) :: rest else (k1, v1) :: dictInsert rest k v

/-- Python `k in d` for a dict. -/
def dictContains {β : Type} (d : List (String × β)) (k : String) : Bool := (dictGet d k).isSome

/-- Python `del d[k]` (the key occurs at most once in a well-formed dict). -/
def dictRemove {β : Type} (d : List (String × β)) (k : String) : List (String × β) :=
  d.filter (fun p => p.1 ≠ k)

/-- Built-in command record (`vibe/cli/commands.py`, `Command`). -/
structure Command where
  aliases : List String
  description : String
  handler : String
  exits : Bool := false
  subcommands : Option (List (String × String)) := none
deriving DecidableEq

/-- Registry-facing plugin command (`vibe/cli/commands.py`, `PluginCommand`). -/
structure PluginCommand where
  name : String
  plugin_name : String
  description : String
  prompt_file : String
deriving DecidableEq

/-- The built-in command table of `CommandRegistry.__init__`, in source order. -/
def builtinCommands : List (String × Command) :=
  [("help", { aliases := ["/help", "/h"], description := "Show help message",
              handler := "_show_help" }),
   ("status", { aliases := ["/status", "/stats"], description := "Display agent statistics",
                handler := "_show_status" }),
   ("config", { aliases := ["/config", "/cfg", "/theme", "/model"],
                description := "Edit config settings", handler := "_show_config" }),
   ("reload", { aliases := ["/reload", "/r"], description := "Reload configuration from disk",
                handler := "_reload_config" }),
   ("clear", { aliases := ["/clear", "/reset"], description := "Clear conversation history",
               handler := "_clear_history" }),
   ("log", { aliases := ["/log", "/logpath"],
             description := "Show path to current interaction log file",
             handler := "_show_log_path" }),
   ("compact", { aliases := ["/compact", "/summarize"],
                 description := "Compact conversation history by summarizing",
                 handler := "_compact_history" }),
   ("plugin", { aliases := ["/plugin", "/plugins"],
                description := "Manage plugins (install, list, remove)",
                handler := "_handle_plugin_command",
                subcommands := some
                  [("install", "Install a plugin from GitHub or marketplace"),
                   ("remove", "Remove an installed plugin"),
                   ("list", "List installed plugins"),
                   ("enable", "Enable a disabled plugin"),
                   ("disable", "Disable a plugin"),
                   ("marketplace", "Manage plugin marketplaces")] }),
   ("subagent", { aliases := ["/subagent", "/subagents"],
                  description := "Run a plugin subagent prompt", handler := "_run_subagent" }),
   ("exit", { aliases := ["/exit", "/quit", "/q"], description := "Exit the application",
              handler := "_exit_app", exits := true })]

/-- State of `CommandRegistry`: built-in commands keyed by name, plugin
commands keyed by alias, and the built-in alias index. -/
structure CommandRegistry where
  commands : List (String × Command)
  plugin_commands : List (String × PluginCommand)
  alias_map : List (String × String)

/-- `CommandRegistry.__init__`: built-ins minus the exclusion list, an empty
plugin table, and the alias index built from the remaining built-ins. -/
def initRegistry (excluded_commands : List String) : CommandRegistry :=
  let commands := builtinCommands.filter (fun p => ¬ excluded_commands.contains p.1)
  { commands := commands
    plugin_commands := []
    alias_map := commands.foldl
      (fun m p => p.2.aliases.foldl (fun m a => dictInsert m a p.1) m) [] }

/-- Qualified alias `/{plugin_name}:{command_name}` of a plugin command. -/
def qualifiedAlias (cmd : PluginCommand) : String :=
  "/" ++ cmd.plugin_name ++ ":" ++ cmd.name

/-- Short alias `/{command_name}` of a plugin command. -/
def shortAlias (cmd : PluginCommand) : String := "/" ++ cmd.name

/-- `CommandRegistry.register_plugin_command`: the qualified alias is stored
unconditionally; the short alias is stored only when it collides neither
with a built-in alias nor with an already-stored plugin alias. -/
def registerPluginCommand (reg : CommandRegistry) (cmd : PluginCommand) : CommandRegistry :=
  let pcs := dictInsert reg.plugin_commands (qualifiedAlias cmd) cmd
  let pcs :=
    if ¬ dictContains reg.alias_map (shortAlias cmd) ∧ ¬ dictContains pcs (shortAlias cmd) then
      dictInsert pcs (shortAlias cmd) cmd
    else pcs
  { reg with plugin_commands := pcs }

/-- `CommandRegistry.set_plugin_commands`: clear the plugin table, then
register every supplied command in order. -/
def setPluginCommands (reg : CommandRegistry) (cmds : List PluginCommand) : CommandRegistry :=
  cmds.foldl registerPluginCommand { reg with plugin_commands := [] }

/-- `CommandRegistry.find_command`: lowercase the whole input, take the token
before the first whitespace, and look it up in the built-in alias index. -/
def findCommand (reg : CommandRegistry) (user_input : String) : Option Command :=
  let base_cmd := baseToken (sToLower user_input)
  match dictGet reg.alias_map base_cmd with
  | some cmd_name => if cmd_name = "" then none else dictGet reg.commands cmd_name
  | none => none

/-- `CommandRegistry.find_plugin_command`: take the token before the first
whitespace, lowercase it, and look it up in the plugin alias table. -/
def findPluginCommand (reg : CommandRegistry) (user_input : String) : Option PluginCommand :=
  let base_cmd := sToLower (baseToken user_input)
  dictGet reg.plugin_commands base_cmd

/-- `PluginManager._normalize_repo`: strip whitespace, a leading
`https://github.com/` or `github.com/` prefix (19 resp. 11 characters),
then a trailing `.git`, then trailing slashes, in that order. -/
def normalizeRepo (source : String) : String :=
  let s := sTrim source
  let s := if sStartsWith s "https://github.com/" then sDrop s 19
           else if sStartsWith s "github.com/" then sDrop s 11
           else s
  let s := if sEndsWith s ".git" then sDropRight s 4 else s
  rstripSlashes s

/-- Parsed JSON value, the result of `json.loads` on a manifest file. -/
inductive Json where
  | null
  | bool (b : Bool)
  | num (n : Int)
  | str (s : String)
  | arr (elems : List Json)
  | obj (fields : List (String × Json))

/-- A JSON object (Python dict produced by `json.loads`). -/
def JObj : Type := List (String × Json)

/-- A plugin checkout on disk. `files` are the text (markdown) files as
root-relative POSIX path and content; `jsonFiles` are the manifest-candidate
JSON files, each mapped to the object produced by `json.loads` on its text,
or `none` when reading/parsing/converting that file raises (the source logs
a warning and tries the next manifest path). -/
structure Checkout where
  files : List (String × String)
  jsonFiles : List (String × Option JObj)

/-- Command entry of a manifest (`vibe/core/plugins/models.py`, `PluginCommand`).
The registry-facing type above carries the owning plugin's name in addition. -/
structure ManifestCommand where
  name : String
  description : String := ""
  prompt_file : String := ""
deriving DecidableEq

/-- Agent entry of a manifest (`vibe/core/plugins/models.py`, `PluginAgent`). -/
structure PluginAgent where
  name : String
  description : String := ""
  prompt_file : String := ""
deriving DecidableEq

/-- Parsed plugin manifest (`vibe/core/plugins/models.py`, `PluginManifest`).
The `author` field is normalized to a string by `_convert_manifest`; the
`mcp_server` field is omitted because no code path modelled here ever reads
or writes it (every constructor call leaves it at its default `None`). -/
structure PluginManifest where
  name : String
  version : String := "1.0.0"
  description : String := ""
  author : String := ""
  repository : String := ""
  commands : List ManifestCommand := []
  agents : List PluginAgent := []
  prompts_dir : String := "prompts"
deriving DecidableEq

/-- Commands of an optional manifest (empty when no manifest). -/
def manifestCommands : Option PluginManifest → List ManifestCommand
  | none => []
  | some m => m.commands

/-- `PluginManager._read_frontmatter`: a file starting with `---` yields the
`key: value` lines up to the next `---` line, later keys overwriting earlier
ones; any other file yields the empty dict. -/
def readFrontmatter (text : String) : List (String × String) :=
  if ¬ sStartsWith text "---" then []
  else
    let lines := ((splitChar '\n' text).drop 1).takeWhile (fun l => sTrim l ≠ "---")
    lines.foldl
      (fun d line =>
        if ¬ sContains line ':' then d
        else
          let key := sTrim ⟨line.data.takeWhile (fun c => ¬ c = ':')⟩
          let value := sTrim ⟨(line.data.dropWhile (fun c => ¬ c = ':')).drop 1⟩
          dictInsert d key value)
      []

/-- Python `pathlib.Path.stem` of a file name: the name minus its last
dot-suffix; a dot at the start or at the very end does not begin a suffix. -/
def nameStem (name : String) : String :=
  let cs := name.data
  let n := cs.length
  match ((List.range n).filter (fun i => cs.getD i ' ' = '.')).getLast? with
  | some i => if 0 < i ∧ i < n - 1 then ⟨cs.take i⟩ else name
  | none => name

/-- Python `Path.stem` of a relative path. -/
def fileStem (p : String) : String := nameStem (lastComponent p)

/-- Python `Path.with_suffix("")` applied to a relative path: the last
component loses its suffix, directories are kept. -/
def stripLastSuffix (p : String) : String :=
  let comps := pathComponents p
  String.intercalate "/" (comps.dropLast ++ [nameStem (comps.getLastD "")])

/-- Whether a path lies (recursively) below the directory `d` of the
checkout root: its first component is `d` and there is at least one more. -/
def underDir (p d : String) : Bool :=
  match pathComponents p with
  | c0 :: _ :: _ => c0 = d
  | _ => false

/-- Whether a path is a single component, directly in the checkout root. -/
def isRootPath (p : String) : Bool :=
  match pathComponents p with
  | [_] => true
  | _ => false

/-- Whether `base_dir.exists()` holds for directory `d` in the checkout
(derived from the files below it; an empty directory contributes nothing
to any discovery loop either way). -/
def dirExists (cx : Checkout) (d : String) : Bool := cx.files.any (fun f => underDir f.1 d)

/-- Files matched by `base_dir.rglob("*.md")` for directory `d`: every file
below `d` (recursively) whose name ends in `.md`. Pathlib's `*` also matches
names with a leading dot and `rglob` descends hidden directories, so no
hidden-file filtering happens here. -/
def mdFilesUnder (cx : Checkout) (d : String) : List (String × String) :=
  cx.files.filter (fun f => underDir f.1 d ∧ sEndsWith f.1 ".md")

/-- Files matched by `path.glob("*.md")` at the checkout root: every
single-component path ending in `.md`, hidden files included. -/
def rootMdFiles (cx : Checkout) : List (String × String) :=
  cx.files.filter (fun f => isRootPath f.1 ∧ sEndsWith f.1 ".md")

/-- Known non-content markdown files skipped by every discovery path. -/
def skipFiles : List String := ["readme.md", "claude.md", "agents.md", "vibe.md"]

/-- One markdown file turned into a command during directory discovery:
`name` from frontmatter or the file stem, `description` from frontmatter or
empty, `prompt_file` the root-relative path. -/
def mdToCommand (f : String × String) : ManifestCommand :=
  let metadata := readFrontmatter f.2
  { name := (dictGet metadata "name").getD (fileStem f.1)
    description := (dictGet metadata "description").getD ""
    prompt_file := f.1 }

/-- Markdown files of directory `d` turned into commands, skip files removed. -/
def dirMdCommands (cx : Checkout) (d : String) : List ManifestCommand :=
  if dirExists cx d then
    ((mdFilesUnder cx d).filter
        (fun f => ¬ skipFiles.contains (sToLower (lastComponent f.1)))).map mdToCommand
  else []

/-- Markdown files of the checkout root turned into commands, skip files removed. -/
def rootMdCommands (cx : Checkout) : List ManifestCommand :=
  ((rootMdFiles cx).filter (fun f => ¬ skipFiles.contains (sToLower f.1))).map mdToCommand

/-- Deduplication of commands by `(name, prompt_file)`, keeping the first
occurrence and dropping entries with an empty name. -/
def dedupCommandsAux : List ManifestCommand → List (String × String) → List ManifestCommand
  | [], _ => []
  | c :: rest, seen =>
      if c.name = "" ∨ (c.name, c.prompt_file) ∈ seen then dedupCommandsAux rest seen
      else c :: dedupCommandsAux rest ((c.name, c.prompt_file) :: seen)

/-- Deduplication of commands as in `_infer_manifest` / `_convert_manifest`. -/
def dedupCommands (l : List ManifestCommand) : List ManifestCommand := dedupCommandsAux l []

/-- Deduplication of agents by `(name, prompt_file)`, first occurrence kept. -/
def dedupAgentsAux : List PluginAgent → List (String × String) → List PluginAgent
  | [], _ => []
  | a :: rest, seen =>
      if a.name = "" ∨ (a.name, a.prompt_file) ∈ seen then dedupAgentsAux rest seen
      else a :: dedupAgentsAux rest ((a.name, a.prompt_file) :: seen)

/-- Deduplication of agents as in `_infer_manifest` / `_convert_manifest`. -/
def dedupAgents (l : List PluginAgent) : List PluginAgent := dedupAgentsAux l []

/-- `PluginManager._discover_agents`: markdown files below `agents/`, name
from frontmatter or the suffix-free path relative to `agents/`. -/
def discoverAgents (cx : Checkout) : List PluginAgent :=
  if ¬ dirExists cx "agents" then []
  else
    ((mdFilesUnder cx "agents").filter
        (fun f => ¬ skipFiles.contains (sToLower (lastComponent f.1)))).map
      (fun f =>
        let rel := stripLastSuffix (String.intercalate "/" ((pathComponents f.1).drop 1))
        let metadata := readFrontmatter f.2
        { name := (dictGet metadata "name").getD rel
          description := (dictGet metadata "description").getD ""
          prompt_file := f.1 })

/-- `PluginManager._infer_manifest`: commands from `commands/` and `prompts/`
(recursively) and from the checkout root, agents from `agents/`; when the
command list is empty the function returns `None` (note: the source inspects
only the command list here, discarding any discovered agents). -/
def inferManifest (cx : Checkout) (dirName : String) : Option PluginManifest :=
  let commands := dirMdCommands cx "commands" ++ dirMdCommands cx "prompts" ++ rootMdCommands cx
  let agents := discoverAgents cx
  if commands.isEmpty then none
  else some { name := dirName
              commands := dedupCommands commands
              agents := dedupAgents agents }

/-- String value of a key in a JSON object, with a default. The manifest
schema carries strings in these positions; a non-string value makes the
source raise inside pydantic validation, which the caller treats as an
unparsable manifest — such ill-typed objects are outside this model. -/
def jGetStr (o : JObj) (k : String) (d : String) : String :=
  match dictGet o k with
  | some (Json.str s) => s
  | _ => d

/-- Object value of a key in a JSON object, defaulting to the empty object
(as in `ext.get("developer", {})`). -/
def jGetObj (o : JObj) (k : String) : JObj :=
  match dictGet o k with
  | some (Json.obj f) => f
  | _ => []

/-- Commands declared under the `commands` key of a manifest object. A
non-object list entry would raise in the source; it is modelled as an
empty-named command, which the later deduplication drops. -/
def jCommandsOf (data : JObj) : List ManifestCommand :=
  match dictGet data "commands" with
  | some (Json.arr xs) =>
      xs.map (fun j =>
        match j with
        | Json.obj c =>
            { name := jGetStr c "name" ""
              description := jGetStr c "description" ""
              prompt_file := jGetStr c "prompt_file" (jGetStr c "prompt" "") }
        | _ => { name := "", description := "", prompt_file := "" })
  | some _ => []
  | none => []

/-- Agents declared under the `agents` key of a manifest object; entries
whose construction raises, or whose name is empty, are skipped (the source
wraps each in try/except and checks `parsed_agent.name`). -/
def jAgentsOf (data : JObj) : List PluginAgent :=
  match dictGet data "agents" with
  | some (Json.arr xs) =>
      xs.filterMap (fun j =>
        match j with
        | Json.obj a =>
            let ag : PluginAgent :=
              { name := jGetStr a "name" ""
                description := jGetStr a "description" ""
                prompt_file := jGetStr a "prompt_file" (jGetStr a "prompt" "") }
            if ag.name = "" then none else some ag
        | _ => none)
  | some _ => []
  | none => []

/-- Author normalization: a dict contributes its `name` field, a string is
taken as is (`_convert_manifest`, non-extensions branch). -/
def jAuthor (data : JObj) : String :=
  match dictGet data "author" with
  | some (Json.obj a) => jGetStr a "name" ""
  | some (Json.str s) => s
  | _ => ""

/-- `PluginManager._convert_manifest`: metadata from the `extensions` head
(Claude Code format) or from the top level, commands from the `commands`
key followed by `commands/` directory discovery, agents from the `agents`
key followed by `agents/` directory discovery, both deduplicated. -/
def convertManifest (data : JObj) (cx : Checkout) (dirName : String) : PluginManifest :=
  let meta : String × String × String × String :=
    match dictGet data "extensions" with
    | some (Json.arr (Json.obj e :: _)) =>
        (jGetStr e "name" dirName, jGetStr e "version" "1.0.0",
         jGetStr e "description" "", jGetStr (jGetObj e "developer") "name" "")
    | some (Json.arr _) => (dirName, "1.0.0", "", "")
    | some _ => (dirName, "1.0.0", "", "")
    | none =>
        (jGetStr data "name" dirName, jGetStr data "version" "1.0.0",
         jGetStr data "description" "", jAuthor data)
  let commands := jCommandsOf data ++ dirMdCommands cx "commands"
  let agents := jAgentsOf data ++ discoverAgents cx
  { name := meta.1
    version := meta.2.1
    description := meta.2.2.1
    author := meta.2.2.2
    repository := jGetStr data "repository" ""
    commands := dedupCommands commands
    agents := dedupAgents agents }

/-- The fixed manifest search paths of `PluginManager.MANIFEST_PATHS`. -/
def MANIFEST_PATHS : List String :=
  [".vibe-plugin/manifest.json",
   ".claude-plugin/marketplace.json",
   ".claude-plugin/plugin.json",
   "plugin.json",
   "manifest.json"]

/-- Loop body of `PluginManager._parse_manifest`: the first listed path that
exists and parses wins; a path that exists but fails to parse is logged and
skipped; when no path succeeds, fall back to structural inference. -/
def tryManifestPaths (cx : Checkout) (dirName : String) : List String → Option PluginManifest
  | [] => inferManifest cx dirName
  | p :: rest =>
      match dictGet cx.jsonFiles p with
      | some (some data) => some (convertManifest data cx dirName)
      | some none => tryManifestPaths cx dirName rest
      | none => tryManifestPaths cx dirName rest

/-- `PluginManager._parse_manifest`. -/
def parseManifest (cx : Checkout) (dirName : String) : Option PluginManifest :=
  tryManifestPaths cx dirName MANIFEST_PATHS

/-- An installed plugin (`vibe/core/plugins/models.py`, `InstalledPlugin`).
The install path is identified by the plugin's directory name below the
plugins directory. -/
structure InstalledPlugin where
  name : String
  version : String := "1.0.0"
  description : String := ""
  repository : String
  install_path : String
  enabled : Bool := true
  manifest : Option PluginManifest := none
deriving DecidableEq

/-- A marketplace plugin entry (`MarketplacePlugin`). -/
structure MarketplacePlugin where
  name : String
  version : String := "1.0.0"
  description : String := ""
  author : String := ""
  repository : String
deriving DecidableEq

/-- A marketplace (`Marketplace`). -/
structure Marketplace where
  name : String
  version : String := "1.0.0"
  url : String
  plugins : List MarketplacePlugin := []
deriving DecidableEq

/-- The persisted `plugins.json` document, modelled by its parsed content
(`_save_config` serializes exactly the installed plugins and marketplaces).
An unchanged document is a byte-for-byte unchanged file. -/
structure ConfigDoc where
  installed : List InstalledPlugin
  marketplaces : List Marketplace
deriving DecidableEq

/-- In-memory and on-disk state owned by `PluginManager`: the installed
dict keyed by plugin name, the marketplace dict keyed by URL, the plugin
checkouts below the plugins directory keyed by directory name, the
materialized command prompt files below `<home>/commands`, and the
persisted registry file (none when it does not exist). -/
structure ManagerState where
  installed : List (String × InstalledPlugin)
  marketplaces : List (String × Marketplace)
  checkouts : List (String × Checkout)
  commandFiles : List (String × String)
  configFile : Option ConfigDoc

/-- `PluginManager._save_config`: rewrite the registry file wholesale from
the current in-memory state. -/
def saveConfig (st : ManagerState) : ManagerState :=
  { st with configFile := some { installed := st.installed.map Prod.snd
                                 marketplaces := st.marketplaces.map Prod.snd } }

/-- `PluginManager._find_in_marketplaces`: first plugin with a matching name
across the registered marketplaces, in order. -/
def findInMarketplaces (mps : List (String × Marketplace)) (name : String) :
    Option MarketplacePlugin :=
  mps.findSome? (fun kv => kv.2.plugins.find? (fun p => p.name = name))

/-- Outcomes of the external effects of `install`: the result of a
`git clone` (the materialized checkout, or `none` for a non-zero exit), the
result of a `git pull --ff-only` (the updated checkout content, or `none`
for a non-zero exit), and the result of the network-backed
`_resolve_org_plugin` search. -/
structure InstallEnv where
  cloneResult : Option Checkout
  pullResult : Option Checkout
  orgResolve : Option String

/-- Which git subprocess an install invoked. -/
inductive GitOp where
  | clone
  | pull
deriving DecidableEq

/-- Failures surfaced by `install`: the `ValueError` for an unresolvable
source (carrying the original source and the probed organization name), and
the `CalledProcessError` of a failed git subprocess. -/
inductive InstallError where
  | invalidSource (source org : String)
  | gitFailure
deriving DecidableEq

/-- Source resolution prefix of `PluginManager.install`: marketplace lookup
for bare names (or when a marketplace is forced), normalization, then the
organization search for a repo still missing a `/`. -/
def resolveRepo (env : InstallEnv) (mps : List (String × Marketplace)) (source : String)
    (fromMarketplace : Option String) : Except InstallError String :=
  let source1 :=
    if fromMarketplace.isSome ∨ ¬ sContains source '/' then
      match findInMarketplaces mps source with
      | some p => p.repository
      | none => source
    else source
  let repo := normalizeRepo source1
  if sContains repo '/' then Except.ok repo
  else
    match env.orgResolve with
    | some r => Except.ok r
    | none => Except.error (InstallError.invalidSource source repo)

/-- The `InstalledPlugin` record `install` builds after a successful
checkout: manifest fields when a manifest parses, otherwise the directory
name, version `1.0.0` and an empty description. -/
def installedPluginOf (co : Checkout) (repo plugin_name : String) : InstalledPlugin :=
  let manifest := parseManifest co plugin_name
  { name := match manifest with | some m => m.name | none => plugin_name
    version := match manifest with | some m => m.version | none => "1.0.0"
    description := match manifest with | some m => m.description | none => ""
    repository := repo
    install_path := plugin_name
    enabled := true
    manifest := manifest }

/-- `PluginManager.get_command_prompt`, applied to the checkout found at the
plugin's install path: no prompt without a `prompt_file`; otherwise read the
file at that path, falling back to the manifest's prompts directory. -/
def getCommandPrompt (co? : Option Checkout) (plugin : InstalledPlugin)
    (cmd : ManifestCommand) : Option String :=
  if cmd.prompt_file = "" then none
  else
    match co? with
    | none => none
    | some co =>
        match dictGet co.files cmd.prompt_file with
        | some txt => some txt
        | none =>
            match plugin.manifest with
            | some m => dictGet co.files (m.prompts_dir ++ "/" ++ cmd.prompt_file)
            | none => none

/-- `PluginManager._install_commands`: materialize each manifest command
with a readable prompt as `<plugin>_<command>.md` under the commands
directory; the source's `if prompt_content:` skips `None` and the empty
string alike. -/
def installCommands (st : ManagerState) (plugin : InstalledPlugin)
    (m : PluginManifest) : ManagerState :=
  { st with commandFiles := (m.commands.foldl
      (fun cf cmd =>
        match getCommandPrompt (dictGet st.checkouts plugin.install_path) plugin cmd with
        | some content =>
            if content = "" then cf
            else dictInsert cf (plugin.name ++ "_" ++ cmd.name ++ ".md") content
        | none => cf)
      st.commandFiles) }

/-- Tail of `PluginManager.install` after a successful clone or pull: parse
the manifest, upsert the registry entry keyed by plugin name, persist, then
materialize commands when the manifest declares any. -/
def installFinish (st : ManagerState) (repo plugin_name : String) (co : Checkout)
    (op : GitOp) : Except InstallError (InstalledPlugin × GitOp) × ManagerState :=
  let manifest := parseManifest co plugin_name
  let plugin := installedPluginOf co repo plugin_name
  let st1 := { st with checkouts := dictInsert st.checkouts plugin_name co
                       installed := dictInsert st.installed plugin.name plugin }
  let st2 := saveConfig st1
  let st3 :=
    match manifest with
    | some m => if m.commands.isEmpty then st2 else installCommands st2 plugin m
    | none => st2
  (Except.ok (plugin, op), st3)

/-- `PluginManager.install`: resolve the source, then pull when the install
directory already exists and clone otherwise; a failed git subprocess raises
before any registry or persistence mutation, so the state at the raise is
the caller's original state. -/
def install (env : InstallEnv) (st : ManagerState) (source : String)
    (fromMarketplace : Option String) :
    Except InstallError (InstalledPlugin × GitOp) × ManagerState :=
  match resolveRepo env st.marketplaces source fromMarketplace with
  | Except.error e => (Except.error e, st)
  | Except.ok repo =>
      let plugin_name := lastComponent repo
      match dictGet st.checkouts plugin_name with
      | some _ =>
          match env.pullResult with
          | some co => installFinish st repo plugin_name co GitOp.pull
          | none => (Except.error InstallError.gitFailure, st)
      | none =>
          match env.cloneResult with
          | some co => installFinish st repo plugin_name co GitOp.clone
          | none => (Except.error InstallError.gitFailure, st)

/-- `PluginManager.uninstall`: an unknown name reports `False` with no
mutation at all; otherwise the install directory is deleted, the registry
entry removed, and the registry persisted. -/
def uninstall (st : ManagerState) (name : String) : Bool × ManagerState :=
  match dictGet st.installed name with
  | none => (false, st)
  | some plugin =>
      let checkouts :=
        if dictContains st.checkouts plugin.install_path then
          dictRemove st.checkouts plugin.install_path
        else st.checkouts
      (true, saveConfig { st with checkouts := checkouts
                                  installed := dictRemove st.installed name })

/-! Concrete fixtures used by witnesses and counterexamples. -/

/-- A plugin command named like the built-in `status` command. -/
def cmdStatusFix : PluginCommand :=
  { name := "status", plugin_name := "tools", description := "Plugin status",
    prompt_file := "s.md" }

/-- A plugin command whose short alias collides with nothing. -/
def cmdDeployFix : PluginCommand :=
  { name := "deploy", plugin_name := "shipit", description := "Deploy things",
    prompt_file := "d.md" }

/-- A second plugin command with the same name from another plugin. -/
def cmdDeploy2Fix : PluginCommand :=
  { name := "deploy", plugin_name := "other", description := "Second deploy",
    prompt_file := "d2.md" }

/-- A plugin command whose registered aliases contain an uppercase letter. -/
def cmdMyCmdFix : PluginCommand :=
  { name := "MyCmd", plugin_name := "tools", description := "Mixed-case command",
    prompt_file := "my.md" }

/-- The default registry after registering the mixed-case plugin command. -/
def regMyCmd : CommandRegistry := setPluginCommands (initRegistry []) [cmdMyCmdFix]

/-- A checkout that contains one agent markdown file and no command files. -/
def cxAgentsOnly : Checkout :=
  { files := [("agents/helper.md", "Reviews code changes")], jsonFiles := [] }

/-- Contents of a native manifest file. -/
def dataAlpha : JObj := [("name", Json.str "alpha"), ("version", Json.str "2.0.0")]

/-- Contents of a competing `plugin.json`. -/
def dataBeta : JObj := [("name", Json.str "beta")]

/-- A checkout in which both `.vibe-plugin/manifest.json` and `plugin.json`
exist and parse. -/
def cxBothManifests : Checkout :=
  { files := []
    jsonFiles := [(".vibe-plugin/manifest.json", some dataAlpha), ("plugin.json", some dataBeta)] }

/-- A manager with nothing installed and no registry file. -/
def stEmpty : ManagerState :=
  { installed := [], marketplaces := [], checkouts := [], commandFiles := [], configFile := none }

/-- A git environment in which both clone and pull exit non-zero. -/
def envCloneFails : InstallEnv := { cloneResult := none, pullResult := none, orgResolve := none }

/-- A small remote checkout. -/
def coDemo : Checkout := { files := [("commands/plan.md", "Make a plan.")], jsonFiles := [] }

/-- A git environment whose clone and pull both materialize `coDemo`. -/
def envDemo : InstallEnv := { cloneResult := some coDemo, pullResult := some coDemo, orgResolve := none }

/-- A root markdown file with frontmatter that omits `name`. -/
def textRootNote : String := "---\ndescription: Root note\n---\nUse this."

/-- A checkout with one content markdown file and a readme at the root. -/
def cxRootDocs : Checkout :=
  { files := [("notes.md", textRootNote), ("readme.md", "Intro text")], jsonFiles := [] }

/-! Association-list (Python dict) lemmas. -/

theorem dictGet_insert {β : Type} (d : List (String × β)) (k a : String) (v : β) :
    dictGet (dictInsert d k v) a = if k = a then some v else dictGet d a := by
  induction d with
  | nil => rfl
  | cons hd tl ih =>
      obtain ⟨k1, v1⟩ := hd
      by_cases h1 : k1 = k
      · subst h1
        by_cases h2 : k1 = a <;> simp [dictInsert, dictGet, h2]
      · by_cases h2 : k1 = a
        · subst h2
          have h3 : ¬ k = k1 := fun e => h1 e.symm
          simp [dictInsert, dictGet, h1, h3]
        · simp [dictInsert, dictGet, h1, h2, ih]

theorem dictGet_insert_self {β : Type} (d : List (String × β)) (k : String) (v : β) :
    dictGet (dictInsert d k v) k = some v := by
  simp [dictGet_insert]

theorem dictGet_insert_ne {β : Type} (d : List (String × β)) {k a : String} (v : β)
    (h : a ≠ k) : dictGet (dictInsert d k v) a = dictGet d a := by
  rw [dictGet_insert]
  exact if_neg (fun e => h e.symm)

theorem mem_keys_dictInsert_self {β : Type} (d : List (String × β)) (k : String) (v : β) :
    k ∈ (dictInsert d k v).map Prod.fst := by
  induction d with
  | nil => simp [dictInsert]
  | cons hd tl ih =>
      obtain ⟨k1, v1⟩ := hd
      by_cases h1 : k1 = k <;> simp [dictInsert, h1, ih]

theorem mem_keys_of_mem_keys_dictInsert {β : Type} {d : List (String × β)} {k a : String}
    {v : β} (h : a ∈ (dictInsert d k v).map Prod.fst) :
    a = k ∨ a ∈ d.map Prod.fst := by
  induction d with
  | nil => simpa [dictInsert] using h
  | cons hd tl ih =>
      obtain ⟨k1, v1⟩ := hd
      by_cases h1 : k1 = k
      · subst h1
        simpa [dictInsert] using h
      · simp only [dictInsert, h1, if_false, List.map_cons, List.mem_cons] at h
        rcases h with h | h
        · exact Or.inr (by simp [h])
        · rcases ih h with h | h
          · exact Or.inl h
          · exact Or.inr (by simp [h])

theorem nodup_keys_dictInsert {β : Type} {d : List (String × β)} (k : String) (v : β)
    (h : (d.map Prod.fst).Nodup) : ((dictInsert d k v).map Prod.fst).Nodup := by
  induction d with
  | nil => simp [dictInsert]
  | cons hd tl ih =>
      obtain ⟨k1, v1⟩ := hd
      simp only [List.map_cons, List.nodup_cons] at h
      by_cases h1 : k1 = k
      · subst h1
        simpa [dictInsert] using h
      · simp only [dictInsert, h1, if_false, List.map_cons, List.nodup_cons]
        refine ⟨fun hmem => ?_, ih h.2⟩
        rcases mem_keys_of_mem_keys_dictInsert hmem with h2 | h2
        · exact h1 h2
        · exact h.1 h2

theorem eq_of_mem_of_nodup_keys {β : Type} {l : List (String × β)}
    (h : (l.map Prod.fst).Nodup) {a : String} {b1 b2 : β}
    (h1 : (a, b1) ∈ l) (h2 : (a, b2) ∈ l) : b1 = b2 := by
  induction l with
  | nil => cases h1
  | cons hd tl ih =>
      simp only [List.map_cons, List.nodup_cons] at h
      rcases List.mem_cons.mp h1 with e1 | m1 <;> rcases List.mem_cons.mp h2 with e2 | m2
      · rw [← e1] at e2; exact (congrArg Prod.snd e2.symm)
      · exact absurd (by simpa [← e1] using List.mem_map_of_mem Prod.fst m2) h.1
      · exact absurd (by simpa [← e2] using List.mem_map_of_mem Prod.fst m1) h.1
      · exact ih h.2 m1 m2

/-! Alias shape lemmas. -/

theorem colon_mem_qualifiedAlias (cmd : PluginCommand) :
    ':' ∈ (qualifiedAlias cmd).data := by
  simp only [qualifiedAlias, String.data_append, List.mem_append]
  exact Or.inl (Or.inr (by decide))

theorem qualifiedAlias_ne_of_no_colon (cmd : PluginCommand) {s : String}
    (h : ':' ∉ s.data) : qualifiedAlias cmd ≠ s := by
  intro he
  exact h (he ▸ colon_mem_qualifiedAlias cmd)

theorem qualifiedAlias_ne_shortAlias (cmd : PluginCommand) :
    qualifiedAlias cmd ≠ shortAlias cmd := by
  intro h
  have hl := congrArg String.length h
  have h1 : ("/" : String).length = 1 := by decide
  have h2 : (":" : String).length = 1 := by decide
  simp only [qualifiedAlias, shortAlias, String.length_append, h1, h2] at hl
  omega

/-! Registration lemmas. -/

theorem register_plugin_commands_eq (reg : CommandRegistry) (cmd : PluginCommand) :
    (registerPluginCommand reg cmd).plugin_commands =
      if ¬ dictContains reg.alias_map (shortAlias cmd) ∧
         ¬ dictContains (dictInsert reg.plugin_commands (qualifiedAlias cmd) cmd)
             (shortAlias cmd)
      then dictInsert (dictInsert reg.plugin_commands (qualifiedAlias cmd) cmd)
             (shortAlias cmd) cmd
      else dictInsert reg.plugin_commands (qualifiedAlias cmd) cmd := rfl

theorem register_alias_map_eq (reg : CommandRegistry) (cmd : PluginCommand) :
    (registerPluginCommand reg cmd).alias_map = reg.alias_map := rfl

theorem register_commands_eq (reg : CommandRegistry) (cmd : PluginCommand) :
    (registerPluginCommand reg cmd).commands = reg.commands := rfl

theorem register_qualified (reg : CommandRegistry) (cmd : PluginCommand) :
    dictGet (registerPluginCommand reg cmd).plugin_commands (qualifiedAlias cmd) = some cmd := by
  rw [register_plugin_commands_eq]
  split
  · rw [dictGet_insert_ne _ _ (qualifiedAlias_ne_shortAlias cmd)]
    exact dictGet_insert_self _ _ _
  · exact dictGet_insert_self _ _ _

theorem register_short_free (reg : CommandRegistry) (cmd : PluginCommand)
    (h1 : dictGet reg.alias_map (shortAlias cmd) = none)
    (h2 : dictGet reg.plugin_commands (shortAlias cmd) = none) :
    dictGet (registerPluginCommand reg cmd).plugin_commands (shortAlias cmd) = some cmd := by
  rw [register_plugin_commands_eq]
  have hq : dictGet (dictInsert reg.plugin_commands (qualifiedAlias cmd) cmd)
      (shortAlias cmd) = none := by
    rw [dictGet_insert_ne _ _ (qualifiedAlias_ne_shortAlias cmd).symm]
    exact h2
  rw [if_pos]
  · exact dictGet_insert_self _ _ _
  · exact ⟨by simp [dictContains, h1], by simp [dictContains, hq]⟩

theorem register_short_blocked (reg : CommandRegistry) (cmd : PluginCommand)
    (h : dictGet reg.alias_map (shortAlias cmd) ≠ none) :
    (registerPluginCommand reg cmd).plugin_commands
      = dictInsert reg.plugin_commands (qualifiedAlias cmd) cmd := by
  rw [register_plugin_commands_eq, if_neg]
  intro hcond
  exact hcond.1 ((Option.isSome_iff_ne_none).mpr h)

theorem register_short_taken (reg : CommandRegistry) (cmd : PluginCommand)
    (h : dictGet reg.plugin_commands (shortAlias cmd) ≠ none) :
    (registerPluginCommand reg cmd).plugin_commands
      = dictInsert reg.plugin_commands (qualifiedAlias cmd) cmd
    ∧ dictGet (registerPluginCommand reg cmd).plugin_commands (shortAlias cmd)
      = dictGet reg.plugin_commands (shortAlias cmd) := by
  have hq : dictGet (dictInsert reg.plugin_commands (qualifiedAlias cmd) cmd)
      (shortAlias cmd) = dictGet reg.plugin_commands (shortAlias cmd) :=
    dictGet_insert_ne _ _ (qualifiedAlias_ne_shortAlias cmd).symm
  have heq : (registerPluginCommand reg cmd).plugin_commands
      = dictInsert reg.plugin_commands (qualifiedAlias cmd) cmd := by
    rw [register_plugin_commands_eq, if_neg]
    intro hcond
    exact hcond.2 ((Option.isSome_iff_ne_none).mpr (by rw [hq]; exact h))
  exact ⟨heq, by rw [heq, hq]⟩

theorem register_preserves_absent (reg : CommandRegistry) (cmd : PluginCommand) {s : String}
    (hcolon : ':' ∉ s.data)
    (halias : dictGet reg.alias_map s ≠ none)
    (h : dictGet reg.plugin_commands s = none) :
    dictGet (registerPluginCommand reg cmd).plugin_commands s = none := by
  rw [register_plugin_commands_eq]
  have hq : dictGet (dictInsert reg.plugin_commands (qualifiedAlias cmd) cmd) s = none := by
    rw [dictGet_insert_ne _ _ (qualifiedAlias_ne_of_no_colon cmd hcolon).symm]
    exact h
  split
  case isTrue hcond =>
    have hne : s ≠ shortAlias cmd := by
      intro e
      rw [← e] at hcond
      exact hcond.1 ((Option.isSome_iff_ne_none).mpr halias)
    rw [dictGet_insert_ne _ _ hne]
    exact hq
  case isFalse _ => exact hq

theorem register_mem_of_dictGet (reg : CommandRegistry) (cmd : PluginCommand)
    {a : String} {pc : PluginCommand}
    (h : dictGet (registerPluginCommand reg cmd).plugin_commands a = some pc) :
    pc = cmd ∨ dictGet reg.plugin_commands a = some pc := by
  rw [register_plugin_commands_eq] at h
  split at h
  · rw [dictGet_insert] at h
    split at h
    · exact Or.inl (Option.some.inj h).symm
    · rw [dictGet_insert] at h
      split at h
      · exact Or.inl (Option.some.inj h).symm
      · exact Or.inr h
  · rw [dictGet_insert] at h
    split at h
    · exact Or.inl (Option.some.inj h).symm
    · exact Or.inr h

theorem foldl_register_alias_map (S : List PluginCommand) (acc : CommandRegistry) :
    (S.foldl registerPluginCommand acc).alias_map = acc.alias_map := by
  induction S generalizing acc with
  | nil => rfl
  | cons c S ih => rw [List.foldl_cons, ih, register_alias_map_eq]

theorem foldl_register_commands (S : List PluginCommand) (acc : CommandRegistry) :
    (S.foldl registerPluginCommand acc).commands = acc.commands := by
  induction S generalizing acc with
  | nil => rfl
  | cons c S ih => rw [List.foldl_cons, ih, register_commands_eq]

theorem foldl_register_preserves_absent (S : List PluginCommand) (acc : CommandRegistry)
    {s : String} (hcolon : ':' ∉ s.data)
    (halias : dictGet acc.alias_map s ≠ none)
    (h : dictGet acc.plugin_commands s = none) :
    dictGet ((S.foldl registerPluginCommand acc).plugin_commands) s = none := by
  induction S generalizing acc with
  | nil => exact h
  | cons c S ih =>
      rw [List.foldl_cons]
      exact ih (registerPluginCommand acc c)
        (by rw [register_alias_map_eq]; exact halias)
        (register_preserves_absent acc c hcolon halias h)

theorem foldl_register_mem (S : List PluginCommand) (acc : CommandRegistry)
    (P : PluginCommand → Prop)
    (hacc : ∀ a pc, dictGet acc.plugin_commands a = some pc → P pc)
    (hS : ∀ c ∈ S, P c) :
    ∀ a pc, dictGet ((S.foldl registerPluginCommand acc).plugin_commands) a = some pc → P pc := by
  induction S generalizing acc with
  | nil => exact hacc
  | cons c S ih =>
      intro a pc h
      rw [List.foldl_cons] at h
      refine ih (registerPluginCommand acc c) ?_
        (fun x hx => hS x (List.mem_cons_of_mem _ hx)) a pc h
      intro a1 pc1 h1
      rcases register_mem_of_dictGet acc c h1 with e | h2
      · rw [e]; exact hS c (List.mem_cons_self c S)
      · exact hacc a1 pc1 h2

/-- C1: registering a plugin command always stores its qualified alias
`/{plugin}:{name}`; the short alias `/{name}` is stored exactly when it
collides with no built-in alias and no already-stored plugin alias — on a
collision with a built-in alias or with an alias some earlier registrant
already holds, the table gains only the qualified alias and the earlier
registrant keeps the short alias; and in the default registry no sequence
of plugin registrations ever makes `/status` resolve to anything but the
built-in `status` command, nor makes it a plugin alias. -/
theorem c1_plugin_alias_precedence (reg : CommandRegistry) (cmd : PluginCommand)
    (S : List PluginCommand) :
    dictGet (registerPluginCommand reg cmd).plugin_commands (qualifiedAlias cmd) = some cmd
    ∧ (dictGet reg.alias_map (shortAlias cmd) = none →
        dictGet reg.plugin_commands (shortAlias cmd) = none →
          dictGet (registerPluginCommand reg cmd).plugin_commands (shortAlias cmd) = some cmd)
    ∧ (dictGet reg.alias_map (shortAlias cmd) ≠ none →
        (registerPluginCommand reg cmd).plugin_commands
          = dictInsert reg.plugin_commands (qualifiedAlias cmd) cmd)
    ∧ (dictGet reg.plugin_commands (shortAlias cmd) ≠ none →
        (registerPluginCommand reg cmd).plugin_commands
          = dictInsert reg.plugin_commands (qualifiedAlias cmd) cmd
        ∧ dictGet (registerPluginCommand reg cmd).plugin_commands (shortAlias cmd)
          = dictGet reg.plugin_commands (shortAlias cmd))
    ∧ findPluginCommand (setPluginCommands (initRegistry []) S) "/status" = none
    ∧ findCommand (setPluginCommands (initRegistry []) S) "/status"
        = dictGet (initRegistry []).commands "status"
    ∧ dictGet (initRegistry []).commands "status"
        = some { aliases := ["/status", "/stats"], description := "Display agent statistics",
                 handler := "_show_status" } := by
  refine ⟨register_qualified reg cmd, register_short_free reg cmd,
    register_short_blocked reg cmd, register_short_taken reg cmd, ?_, ?_, by decide⟩
  · have htok : sToLower (baseToken "/status") = "/status" := by decide
    show dictGet (setPluginCommands (initRegistry []) S).plugin_commands
        (sToLower (baseToken "/status")) = none
    rw [htok]
    unfold setPluginCommands
    apply foldl_register_preserves_absent
    · decide
    · show dictGet (initRegistry []).alias_map "/status" ≠ none
      decide
    · rfl
  · simp only [findCommand, setPluginCommands, foldl_register_alias_map,
      foldl_register_commands]
    decide

/-- C1 witness: a fresh short alias is stored together with the qualified
alias; a second plugin also named `deploy` does not displace the first
registrant's `/deploy`; and a plugin command named `status` leaves
`/status` out of the plugin alias table. -/
theorem c1_witness :
    dictGet (registerPluginCommand (initRegistry []) cmdDeployFix).plugin_commands
        (qualifiedAlias cmdDeployFix) = some cmdDeployFix
    ∧ dictGet (registerPluginCommand (initRegistry []) cmdDeployFix).plugin_commands
        (shortAlias cmdDeployFix) = some cmdDeployFix
    ∧ dictGet (registerPluginCommand (registerPluginCommand (initRegistry []) cmdDeployFix)
          cmdDeploy2Fix).plugin_commands (shortAlias cmdDeploy2Fix) = some cmdDeployFix
    ∧ findPluginCommand (setPluginCommands (initRegistry []) [cmdStatusFix]) "/status" = none :=
  ⟨(c1_plugin_alias_precedence (initRegistry []) cmdDeployFix []).1,
   (c1_plugin_alias_precedence (initRegistry []) cmdDeployFix []).2.1 (by decide) (by decide),
   Eq.trans
     (((c1_plugin_alias_precedence (registerPluginCommand (initRegistry []) cmdDeployFix)
         cmdDeploy2Fix []).2.2.2.1 (by decide)).2)
     (by decide),
   (c1_plugin_alias_precedence (initRegistry []) cmdDeployFix [cmdStatusFix]).2.2.2.2.1⟩

/-- C2 counterexample: on the input of the claim the code keeps the `.git`
suffix, because the trailing slash is stripped only after the `.git` check. -/
theorem c2_counterexample :
    normalizeRepo "https://github.com/a/b.git/" = "a/b.git"
    ∧ ¬ normalizeRepo "https://github.com/a/b.git/" = "a/b" :=
  ⟨by decide, by decide⟩

/-- C2 (amended): normalization strips the prefix, then a trailing `.git`,
then trailing slashes, in that order; hence the claimed input normalizes to
`a/b.git`, while without the trailing slash it normalizes to `a/b`. -/
theorem c2_normalize_strip_order :
    normalizeRepo "https://github.com/a/b.git/" = "a/b.git"
    ∧ normalizeRepo "https://github.com/a/b.git" = "a/b"
    ∧ normalizeRepo "github.com/a/b.git" = "a/b"
    ∧ normalizeRepo "https://github.com/a/b/" = "a/b"
    ∧ normalizeRepo " a/b " = "a/b" :=
  ⟨by decide, by decide, by decide, by decide, by decide⟩

/-- C3 counterexample: the alias `/MyCmd` is registered in the plugin table
exactly as typed, yet looking it up with the very same spelling fails,
because `find_plugin_command` lowercases the input token. -/
theorem c3_counterexample :
    dictGet regMyCmd.plugin_commands "/MyCmd" = some cmdMyCmdFix
    ∧ findPluginCommand regMyCmd "/MyCmd" = none :=
  ⟨by decide, by decide⟩

/-- C3 (amended): plugin-alias lookup also lowercases the token before the
first whitespace, so a stored plugin alias containing an uppercase letter is
not found by typing it exactly as registered (unless its lowercased form is
separately stored). -/
theorem c3_plugin_lookup_lowercases (reg : CommandRegistry) (a : String) (pc : PluginCommand)
    (hbase : baseToken a = a)
    (hupper : sToLower a ≠ a)
    (hreg : dictGet reg.plugin_commands a = some pc)
    (hlow : dictGet reg.plugin_commands (sToLower a) = none) :
    findPluginCommand reg a = none := by
  show dictGet reg.plugin_commands (sToLower (baseToken a)) = none
  rw [hbase]
  exact hlow

/-- C3 witness: the amended statement applied to the mixed-case fixture. -/
theorem c3_witness : findPluginCommand regMyCmd "/MyCmd" = none :=
  c3_plugin_lookup_lowercases regMyCmd "/MyCmd" cmdMyCmdFix
    (by decide) (by decide) (by decide) (by decide)

/-- C4: a checkout whose inference finds one agent and no commands makes
`_infer_manifest` return `None`, discarding the discovered agent — the
function tests only the command list. -/
theorem c4_agents_only_returns_none :
    inferManifest cxAgentsOnly "plug" = none
    ∧ discoverAgents cxAgentsOnly
        = [{ name := "helper", description := "", prompt_file := "agents/helper.md" }] :=
  ⟨by decide, by decide⟩

/-- C5: rebuilding the plugin command set ignores the prior plugin alias
table entirely; every surviving alias maps to a command of the new set; and
a short alias held only by a removed plugin is claimable by a new
registrant. -/
theorem c5_rebuild_plugin_aliases (reg : CommandRegistry)
    (prior : List (String × PluginCommand)) (S : List PluginCommand) (c : PluginCommand) :
    (setPluginCommands { reg with plugin_commands := prior } S).plugin_commands
      = (setPluginCommands reg S).plugin_commands
    ∧ (∀ a pc, dictGet (setPluginCommands reg S).plugin_commands a = some pc → pc ∈ S)
    ∧ (dictGet prior (shortAlias c) ≠ none →
        dictGet reg.alias_map (shortAlias c) = none →
          dictGet (setPluginCommands { reg with plugin_commands := prior } [c]).plugin_commands
              (shortAlias c) = some c) := by
  refine ⟨rfl, ?_, ?_⟩
  · intro a pc h
    refine foldl_register_mem S { reg with plugin_commands := [] } (· ∈ S) ?_
      (fun x hx => hx) a pc h
    intro a1 pc1 h1
    simp [dictGet] at h1
  · intro hprev halias
    show dictGet
        (registerPluginCommand { reg with plugin_commands := ([] : List (String × PluginCommand)) }
          c).plugin_commands (shortAlias c) = some c
    exact register_short_free _ c halias rfl

/-- C5 witness: with the built-in registry, a stale `/deploy` alias in the
prior table, and a rebuild from the single new `deploy` command, the new
command claims `/deploy`. -/
theorem c5_witness :
    dictGet (setPluginCommands { initRegistry [] with
        plugin_commands := [("/deploy", cmdMyCmdFix)] } [cmdDeployFix]).plugin_commands
      (shortAlias cmdDeployFix) = some cmdDeployFix :=
  (c5_rebuild_plugin_aliases (initRegistry []) [("/deploy", cmdMyCmdFix)] [cmdDeployFix]
    cmdDeployFix).2.2 (by decide) (by decide)

/-! Checkout congruence lemmas: the manifest conversion reads only the text
files of a checkout, never its JSON store. -/

theorem dirExists_congr {cx1 cx2 : Checkout} (h : cx1.files = cx2.files) (d : String) :
    dirExists cx1 d = dirExists cx2 d := by
  unfold dirExists; rw [h]

theorem mdFilesUnder_congr {cx1 cx2 : Checkout} (h : cx1.files = cx2.files) (d : String) :
    mdFilesUnder cx1 d = mdFilesUnder cx2 d := by
  unfold mdFilesUnder; rw [h]

theorem dirMdCommands_congr {cx1 cx2 : Checkout} (h : cx1.files = cx2.files) (d : String) :
    dirMdCommands cx1 d = dirMdCommands cx2 d := by
  unfold dirMdCommands
  rw [dirExists_congr h, mdFilesUnder_congr h]

theorem discoverAgents_congr {cx1 cx2 : Checkout} (h : cx1.files = cx2.files) :
    discoverAgents cx1 = discoverAgents cx2 := by
  unfold discoverAgents
  rw [dirExists_congr h, mdFilesUnder_congr h]

theorem convertManifest_congr (data : JObj) {cx1 cx2 : Checkout} (h : cx1.files = cx2.files)
    (dirName : String) : convertManifest data cx1 dirName = convertManifest data cx2 dirName := by
  unfold convertManifest
  rw [dirMdCommands_congr h, discoverAgents_congr h]

/-- C8: when `.vibe-plugin/manifest.json` exists and parses, the parsed
manifest is the conversion of exactly that file's contents, and replacing
the contents of `plugin.json` by anything (present, absent, or unparsable)
leaves the result unchanged. -/
theorem c8_manifest_precedence (cx : Checkout) (dirName : String) (data : JObj)
    (h : dictGet cx.jsonFiles ".vibe-plugin/manifest.json" = some (some data)) :
    parseManifest cx dirName = some (convertManifest data cx dirName)
    ∧ ∀ v, parseManifest { cx with jsonFiles := dictInsert cx.jsonFiles "plugin.json" v }
        dirName = parseManifest cx dirName := by
  constructor
  · simp only [parseManifest, MANIFEST_PATHS, tryManifestPaths, h]
  · intro v
    have hne : (".vibe-plugin/manifest.json" : String) ≠ "plugin.json" := by decide
    have h2 : dictGet (dictInsert cx.jsonFiles "plugin.json" v)
        ".vibe-plugin/manifest.json" = some (some data) := by
      rw [dictGet_insert_ne _ _ hne]; exact h
    simp only [parseManifest, MANIFEST_PATHS, tryManifestPaths, h, h2]
    exact congrArg some (convertManifest_congr data rfl dirName)

/-- C8 witness: the precedence theorem applied to a checkout holding both
manifest files, replacing `plugin.json` by other parsed contents. -/
theorem c8_witness :
    parseManifest cxBothManifests "demo" = some (convertManifest dataAlpha cxBothManifests "demo")
    ∧ parseManifest { cxBothManifests with
        jsonFiles := dictInsert cxBothManifests.jsonFiles "plugin.json" (some dataBeta) } "demo"
      = parseManifest cxBothManifests "demo" :=
  ⟨(c8_manifest_precedence cxBothManifests "demo" dataAlpha rfl).1,
   (c8_manifest_precedence cxBothManifests "demo" dataAlpha rfl).2 (some dataBeta)⟩

/-- C9: uninstalling an unknown plugin name returns `False` and leaves the
whole manager state — the in-memory registry and the persisted registry
file — exactly as it was; in particular no persistence write occurs. -/
theorem c9_uninstall_unknown_noop (st : ManagerState) (name : String)
    (h : dictGet st.installed name = none) :
    uninstall st name = (false, st) := by
  unfold uninstall
  rw [h]

/-- C9 witness: uninstalling from the empty manager. -/
theorem c9_witness : uninstall stEmpty "ghost" = (false, stEmpty) :=
  c9_uninstall_unknown_noop stEmpty "ghost" rfl

/-- C6: once the source resolves, a non-zero exit of the git subprocess —
clone on a fresh install, pull on an existing install path — makes `install`
raise with the manager state exactly as before the call: no registry entry,
no persistence write. -/
theorem c6_git_failure_aborts (env : InstallEnv) (st : ManagerState) (source : String)
    (fm : Option String) (repo : String)
    (hres : resolveRepo env st.marketplaces source fm = Except.ok repo)
    (hgit : (dictGet st.checkouts (lastComponent repo) = none ∧ env.cloneResult = none)
          ∨ ((dictGet st.checkouts (lastComponent repo)).isSome ∧ env.pullResult = none)) :
    install env st source fm = (Except.error InstallError.gitFailure, st) := by
  rcases hgit with ⟨hc, hcl⟩ | ⟨hs, hp⟩
  · simp only [install, hres, hc, hcl]
  · obtain ⟨c0, hc0⟩ := Option.isSome_iff_exists.mp hs
    simp only [install, hres, hc0, hp]

/-- C6 witness: a failing clone of a fresh install leaves the empty manager
untouched. -/
theorem c6_witness :
    install envCloneFails stEmpty "o/r" none
      = (Except.error InstallError.gitFailure, stEmpty) :=
  c6_git_failure_aborts envCloneFails stEmpty "o/r" none "o/r" rfl (Or.inl ⟨rfl, rfl⟩)

/-! Install characterization lemmas for re-installation. -/

theorem install_fresh_clone (env : InstallEnv) (st : ManagerState) (source : String)
    (fm : Option String) (repo : String) (co : Checkout)
    (hres : resolveRepo env st.marketplaces source fm = Except.ok repo)
    (hfresh : dictGet st.checkouts (lastComponent repo) = none)
    (hclone : env.cloneResult = some co) :
    install env st source fm = installFinish st repo (lastComponent repo) co GitOp.clone := by
  simp only [install, hres, hfresh, hclone]

theorem install_existing_pull (env : InstallEnv) (st : ManagerState) (source : String)
    (fm : Option String) (repo : String) (co c0 : Checkout)
    (hres : resolveRepo env st.marketplaces source fm = Except.ok repo)
    (hc : dictGet st.checkouts (lastComponent repo) = some c0)
    (hpull : env.pullResult = some co) :
    install env st source fm = installFinish st repo (lastComponent repo) co GitOp.pull := by
  simp only [install, hres, hc, hpull]

theorem installFinish_fst (st : ManagerState) (repo pname : String) (co : Checkout)
    (op : GitOp) :
    (installFinish st repo pname co op).1 = Except.ok (installedPluginOf co repo pname, op) := rfl

theorem installFinish_marketplaces (st : ManagerState) (repo pname : String) (co : Checkout)
    (op : GitOp) :
    ((installFinish st repo pname co op).2).marketplaces = st.marketplaces := by
  simp only [installFinish]
  cases hp : parseManifest co pname with
  | none => rfl
  | some m =>
      by_cases hc : m.commands.isEmpty = true <;> simp [hc, installCommands, saveConfig]

theorem installFinish_checkouts (st : ManagerState) (repo pname : String) (co : Checkout)
    (op : GitOp) :
    ((installFinish st repo pname co op).2).checkouts = dictInsert st.checkouts pname co := by
  simp only [installFinish]
  cases hp : parseManifest co pname with
  | none => rfl
  | some m =>
      by_cases hc : m.commands.isEmpty = true <;> simp [hc, installCommands, saveConfig]

theorem installFinish_installed (st : ManagerState) (repo pname : String) (co : Checkout)
    (op : GitOp) :
    ((installFinish st repo pname co op).2).installed
      = dictInsert st.installed (installedPluginOf co repo pname).name
          (installedPluginOf co repo pname) := by
  simp only [installFinish]
  cases hp : parseManifest co pname with
  | none => rfl
  | some m =>
      by_cases hc : m.commands.isEmpty = true <;> simp [hc, installCommands, saveConfig]

/-- C7: installing the same resolvable source twice against an unchanged
remote performs a clone first and then a pull — never a second clone — and
afterwards the registry, keyed by name, holds exactly one entry for the
plugin, namely the one just built. -/
theorem c7_reinstall_clone_then_pull (env : InstallEnv) (st : ManagerState)
    (source repo : String) (co : Checkout)
    (hres : resolveRepo env st.marketplaces source none = Except.ok repo)
    (hfresh : dictGet st.checkouts (lastComponent repo) = none)
    (hclone : env.cloneResult = some co)
    (hpull : env.pullResult = some co)
    (hnodup : (st.installed.map Prod.fst).Nodup) :
    (install env st source none).1
        = Except.ok (installedPluginOf co repo (lastComponent repo), GitOp.clone)
    ∧ (install env (install env st source none).2 source none).1
        = Except.ok (installedPluginOf co repo (lastComponent repo), GitOp.pull)
    ∧ dictGet ((install env (install env st source none).2 source none).2).installed
          (installedPluginOf co repo (lastComponent repo)).name
        = some (installedPluginOf co repo (lastComponent repo))
    ∧ (((install env (install env st source none).2 source none).2).installed.map
          Prod.fst).count (installedPluginOf co repo (lastComponent repo)).name = 1 := by
  have h1 : install env st source none
      = installFinish st repo (lastComponent repo) co GitOp.clone :=
    install_fresh_clone env st source none repo co hres hfresh hclone
  set st1 := (installFinish st repo (lastComponent repo) co GitOp.clone).2 with hst1
  have hres1 : resolveRepo env st1.marketplaces source none = Except.ok repo := by
    rw [hst1, installFinish_marketplaces]; exact hres
  have hc1 : dictGet st1.checkouts (lastComponent repo) = some co := by
    rw [hst1, installFinish_checkouts]; exact dictGet_insert_self _ _ _
  have h2 : install env st1 source none
      = installFinish st1 repo (lastComponent repo) co GitOp.pull :=
    install_existing_pull env st1 source none repo co co hres1 hc1 hpull
  have hsnd1 : (install env st source none).2 = st1 := by rw [h1]
  refine ⟨?_, ?_, ?_, ?_⟩
  · rw [h1, installFinish_fst]
  · rw [hsnd1, h2, installFinish_fst]
  · rw [hsnd1, h2, installFinish_installed]
    exact dictGet_insert_self _ _ _
  · rw [hsnd1, h2]
    have hnd1 : (st1.installed.map Prod.fst).Nodup := by
      rw [hst1, installFinish_installed]
      exact nodup_keys_dictInsert _ _ hnodup
    have hnd2 : ((((installFinish st1 repo (lastComponent repo) co
        GitOp.pull).2).installed).map Prod.fst).Nodup := by
      rw [installFinish_installed]
      exact nodup_keys_dictInsert _ _ hnd1
    have hmem : (installedPluginOf co repo (lastComponent repo)).name
        ∈ (((installFinish st1 repo (lastComponent repo) co
            GitOp.pull).2).installed).map Prod.fst := by
      rw [installFinish_installed]
      exact mem_keys_dictInsert_self _ _ _
    exact List.count_eq_one_of_mem hnd2 hmem

/-- C7 witness: installing `org/tool` twice into the empty manager. -/
theorem c7_witness :
    (install envDemo stEmpty "org/tool" none).1
        = Except.ok (installedPluginOf coDemo "org/tool" (lastComponent "org/tool"),
            GitOp.clone)
    ∧ (install envDemo (install envDemo stEmpty "org/tool" none).2 "org/tool" none).1
        = Except.ok (installedPluginOf coDemo "org/tool" (lastComponent "org/tool"),
            GitOp.pull)
    ∧ (((install envDemo (install envDemo stEmpty "org/tool" none).2 "org/tool"
          none).2).installed.map Prod.fst).count
        (installedPluginOf coDemo "org/tool" (lastComponent "org/tool")).name = 1 :=
  ⟨(c7_reinstall_clone_then_pull envDemo stEmpty "org/tool" "org/tool" coDemo
      rfl rfl rfl rfl (by decide)).1,
   (c7_reinstall_clone_then_pull envDemo stEmpty "org/tool" "org/tool" coDemo
      rfl rfl rfl rfl (by decide)).2.1,
   (c7_reinstall_clone_then_pull envDemo stEmpty "org/tool" "org/tool" coDemo
      rfl rfl rfl rfl (by decide)).2.2.2⟩

/-! Discovery lemmas for root markdown files. -/

theorem mdToCommand_prompt_file (f : String × String) : (mdToCommand f).prompt_file = f.1 := rfl

theorem not_underDir_of_isRootPath {p : String} (h : isRootPath p = true) (d : String) :
    underDir p d = false := by
  unfold isRootPath at h
  unfold underDir
  cases hpc : pathComponents p with
  | nil => simp only [hpc] at h; exact absurd h (by decide)
  | cons c tl =>
      cases tl with
      | nil => rfl
      | cons c2 t2 => simp only [hpc] at h; exact absurd h (by decide)

theorem dedupCommandsAux_subset {l : List ManifestCommand} {seen : List (String × String)}
    {c : ManifestCommand} (h : c ∈ dedupCommandsAux l seen) : c ∈ l := by
  induction l generalizing seen with
  | nil => simpa [dedupCommandsAux] using h
  | cons a rest ih =>
      unfold dedupCommandsAux at h
      split at h
      · exact List.mem_cons_of_mem _ (ih h)
      · rcases List.mem_cons.mp h with e | hm
        · rw [e]; exact List.mem_cons_self a rest
        · exact List.mem_cons_of_mem _ (ih hm)

theorem mem_dedupCommandsAux (l : List ManifestCommand) (c : ManifestCommand) :
    ∀ seen, c ∈ l → c.name ≠ "" →
      (∀ c2 ∈ l, (c2.name, c2.prompt_file) = (c.name, c.prompt_file) → c2 = c) →
      (c.name, c.prompt_file) ∉ seen → c ∈ dedupCommandsAux l seen := by
  induction l with
  | nil => intro seen h; cases h
  | cons a rest ih =>
      intro seen hmem hname huniq hseen
      unfold dedupCommandsAux
      split
      case isTrue hdrop =>
        rcases List.mem_cons.mp hmem with e | hm
        · rw [← e] at hdrop
          rcases hdrop with h0 | h0
          · exact absurd h0 hname
          · exact absurd h0 hseen
        · exact ih seen hm hname (fun c2 h2 => huniq c2 (List.mem_cons_of_mem _ h2)) hseen
      case isFalse hkeep =>
        rcases List.mem_cons.mp hmem with e | hm
        · rw [e]; exact List.mem_cons_self _ _
        · by_cases hac : a = c
          · rw [hac]; exact List.mem_cons_self _ _
          · have hkey : ¬ ((a.name, a.prompt_file) = (c.name, c.prompt_file)) :=
              fun hk => hac (huniq a (List.mem_cons_self a rest) hk)
            refine List.mem_cons_of_mem _
              (ih ((a.name, a.prompt_file) :: seen) hm hname
                (fun c2 h2 => huniq c2 (List.mem_cons_of_mem _ h2)) ?_)
            intro hin
            rcases List.mem_cons.mp hin with he | hin2
            · exact hkey he.symm
            · exact hseen hin2

theorem mem_dirMdCommands {cx : Checkout} {d : String} {c : ManifestCommand}
    (h : c ∈ dirMdCommands cx d) :
    ∃ f, f ∈ cx.files ∧ underDir f.1 d = true ∧ c = mdToCommand f := by
  unfold dirMdCommands mdFilesUnder at h
  split at h
  · simp only [List.mem_map, List.mem_filter, decide_eq_true_eq] at h
    obtain ⟨f, ⟨⟨hfmem, hcond⟩, _⟩, he⟩ := h
    exact ⟨f, hfmem, hcond.1, he.symm⟩
  · cases h

theorem mem_rootMdCommands {cx : Checkout} {c : ManifestCommand}
    (h : c ∈ rootMdCommands cx) :
    ∃ f, f ∈ cx.files ∧ isRootPath f.1 = true
      ∧ skipFiles.contains (sToLower f.1) = false ∧ c = mdToCommand f := by
  unfold rootMdCommands rootMdFiles at h
  simp only [List.mem_map, List.mem_filter, decide_eq_true_eq, Bool.not_eq_true] at h
  obtain ⟨f, ⟨⟨hfmem, hcond⟩, hskip⟩, he⟩ := h
  exact ⟨f, hfmem, hcond.1, hskip, he.symm⟩

/-- C10: every markdown file directly in the checkout root — hidden or not —
whose name is not one of the four skip files becomes a command of the
inferred manifest, with `name` taken from frontmatter or defaulting to the
file stem and `prompt_file` the root-relative path; root files named like a
skip file (case-insensitively) yield no command at all. -/
theorem c10_root_markdown_commands (cx : Checkout) (d p text q : String)
    (hmem : (p, text) ∈ cx.files)
    (hroot : isRootPath p = true)
    (hmd : sEndsWith p ".md" = true)
    (hskip : skipFiles.contains (sToLower p) = false)
    (hnodup : (cx.files.map Prod.fst).Nodup)
    (hname : (mdToCommand (p, text)).name ≠ "")
    (hqroot : isRootPath q = true)
    (hq : skipFiles.contains (sToLower q) = true) :
    (mdToCommand (p, text)).prompt_file = p
    ∧ mdToCommand (p, text) ∈ manifestCommands (inferManifest cx d)
    ∧ inferManifest cx d ≠ none
    ∧ ∀ c2 ∈ manifestCommands (inferManifest cx d), c2.prompt_file ≠ q := by
  set cmds := dirMdCommands cx "commands" ++ dirMdCommands cx "prompts" ++ rootMdCommands cx
    with hcmds
  have hcin : mdToCommand (p, text) ∈ rootMdCommands cx := by
    unfold rootMdCommands rootMdFiles
    refine List.mem_map.mpr ⟨(p, text), ?_, rfl⟩
    refine List.mem_filter.mpr ⟨List.mem_filter.mpr ⟨hmem, ?_⟩, ?_⟩
    · simp [hroot, hmd]
    · simpa using hskip
  have hmem2 : mdToCommand (p, text) ∈ cmds := by
    rw [hcmds]
    exact List.mem_append.mpr (Or.inr hcin)
  have hne : cmds.isEmpty = false := by
    cases hc : cmds with
    | nil => rw [hc] at hmem2; cases hmem2
    | cons _ _ => rfl
  have hinf : inferManifest cx d
      = some { name := d, commands := dedupCommands cmds,
               agents := dedupAgents (discoverAgents cx) } := by
    unfold inferManifest
    rw [← hcmds]
    simp [hne]
  have huniq : ∀ c2 ∈ cmds, (c2.name, c2.prompt_file)
      = ((mdToCommand (p, text)).name, (mdToCommand (p, text)).prompt_file)
      → c2 = mdToCommand (p, text) := by
    intro c2 hc2 hkey
    have hpf : c2.prompt_file = p := congrArg Prod.snd hkey
    rw [hcmds] at hc2
    rcases List.mem_append.mp hc2 with hAB | hC
    · exfalso
      rcases List.mem_append.mp hAB with hA | hB
      · obtain ⟨f, _, hu, he⟩ := mem_dirMdCommands hA
        rw [he] at hpf
        have hf1 : f.1 = p := hpf
        rw [hf1, not_underDir_of_isRootPath hroot "commands"] at hu
        cases hu
      · obtain ⟨f, _, hu, he⟩ := mem_dirMdCommands hB
        rw [he] at hpf
        have hf1 : f.1 = p := hpf
        rw [hf1, not_underDir_of_isRootPath hroot "prompts"] at hu
        cases hu
    · obtain ⟨f, hf, _, _, he⟩ := mem_rootMdCommands hC
      obtain ⟨f1, f2⟩ := f
      rw [he] at hpf
      have hf1 : f1 = p := hpf
      rw [hf1] at hf he
      have hf2 : f2 = text := eq_of_mem_of_nodup_keys hnodup hf hmem
      rw [hf2] at he
      exact he
  refine ⟨rfl, ?_, ?_, ?_⟩
  · rw [hinf]
    show mdToCommand (p, text) ∈ dedupCommands cmds
    exact mem_dedupCommandsAux cmds (mdToCommand (p, text)) [] hmem2 hname huniq
      (List.not_mem_nil _)
  · rw [hinf]
    simp
  · intro c2 hc2
    rw [hinf] at hc2
    have hc3 : c2 ∈ cmds := dedupCommandsAux_subset hc2
    intro hqe
    rw [hcmds] at hc3
    rcases List.mem_append.mp hc3 with hAB | hC
    · rcases List.mem_append.mp hAB with hA | hB
      · obtain ⟨f, _, hu, he⟩ := mem_dirMdCommands hA
        rw [he] at hqe
        have hf1 : f.1 = q := hqe
        rw [hf1, not_underDir_of_isRootPath hqroot "commands"] at hu
        cases hu
      · obtain ⟨f, _, hu, he⟩ := mem_dirMdCommands hB
        rw [he] at hqe
        have hf1 : f.1 = q := hqe
        rw [hf1, not_underDir_of_isRootPath hqroot "prompts"] at hu
        cases hu
    · obtain ⟨f, _, _, hskip2, he⟩ := mem_rootMdCommands hC
      rw [he] at hqe
      have hf1 : f.1 = q := hqe
      rw [hf1, hq] at hskip2
      cases hskip2

/-- C10 witness: the root file `notes.md` of the fixture checkout becomes a
command with stem-derived name and root-relative prompt path, while the
manifest exists despite `readme.md` sitting beside it. -/
theorem c10_witness :
    (mdToCommand ("notes.md", textRootNote)).prompt_file = "notes.md"
    ∧ mdToCommand ("notes.md", textRootNote) ∈ manifestCommands (inferManifest cxRootDocs "demo")
    ∧ inferManifest cxRootDocs "demo" ≠ none :=
  ⟨(c10_root_markdown_commands cxRootDocs "demo" "notes.md" textRootNote "readme.md"
      (by decide) (by decide) (by decide) (by decide) (by decide) (by decide)
      (by decide) (by decide)).1,
   (c10_root_markdown_commands cxRootDocs "demo" "notes.md" textRootNote "readme.md"
      (by decide) (by decide) (by decide) (by decide) (by decide) (by decide)
      (by decide) (by decide)).2.1,
   (c10_root_markdown_commands cxRootDocs "demo" "notes.md" textRootNote "readme.md"
      (by decide) (by decide) (by decide) (by decide) (by decide) (by decide)
      (by decide) (by decide)).2.2.1⟩

end Vibe
